import Mathlib

/-!
Verification development for the socket.io packet codec and binary-attachment
reconstruction engine (`src/message.rs`, `src/error.rs`).

The Rust code is shallowly embedded: character streams become `List Char`,
`rustc_serialize::json::Json` becomes the inductive `Json` below (objects are
key-sorted association lists, mirroring `BTreeMap`), fallible code returns
`Except SocketError`, and `assert!`/`expect` panics are modelled by the
distinguished `SocketError.panicked` outcome (an unrecoverable abort, kept
separate from every recoverable error value).
-/

/-- Embedding of `rustc_serialize::json::Json` (an external capability of the
codec).  `Str`/`Arr`/`Obj` stand for the library's `String`/`Array`/`Object`
constructors; `Obj` is a key-sorted association list mirroring
`BTreeMap<String, Json>`.  Floating-point literals (`F64`) are outside this
model; no behaviour claimed about the codec involves them. -/
inductive Json where
  | Null : Json
  | Boolean : Bool → Json
  | I64 : Int → Json
  | U64 : Nat → Json
  | Str : String → Json
  | Arr : List Json → Json
  | Obj : List (String × Json) → Json

/-- Error codes of the external JSON parser (`rustc_serialize::json::ParserError`),
as far as the codec can observe them. -/
inductive JErr where
  | invalidSyntax : JErr
  | invalidNumber : JErr
  | eofWhileParsing : JErr
  | keyMustBeAString : JErr
  | expectedColon : JErr
  | trailingCharacters : JErr
  | invalidEscape : JErr
deriving Repr, DecidableEq

/-- Embedding of `SocketError` (src/error.rs) restricted to the shapes the
codec produces.  `unexpectedEof` is `SocketError::Io(UnexpectedEof,
BUFFER_UNEXPECTED_EOF)`; `invalidData msg` is `SocketError::invalid_data(msg)`;
`parseIntError` is the `From<ParseIntError>` conversion; `jsonError` is the
`From<ParserError>` conversion; `panicked` models an `assert!`/`expect`/
`unwrap` panic (process abort), which in Rust is not a recoverable `Result`
value at all — it is kept as a separate constructor so theorems can
distinguish the abort path from every recoverable error. -/
inductive SocketError where
  | unexpectedEof : SocketError
  | invalidData : String → SocketError
  | parseIntError : SocketError
  | jsonError : JErr → SocketError
  | panicked : String → SocketError
deriving Repr, DecidableEq

/-- Error message constant from src/message.rs. -/
def ACK_PACKET_WITHOUT_ID : String := "Received ack packet without an ID."

/-- Error message constant from src/message.rs. -/
def ATTACHMENT_ARRAY_TOO_SHORT : String :=
  "Attachments could not be reattached because the attachment array was too short."

/-- Error message constant from src/message.rs. -/
def MESSAGE_PACKET_ARRAY_MISSING : String :=
  "Packet could not be parsed because the message JSON data was not an array."

/-- Error message constant from src/message.rs. -/
def MESSAGE_PACKET_ARRAY_TOO_SHORT : String :=
  "Packet could not be parsed because the data array did not contain enough elements."

/-- Error message constant from src/message.rs (the source text contains an
apostrophe in the contraction, written out here as two words). -/
def MESSAGE_PACKET_NAME_NOT_STRING : String :=
  "Packet could not be parsed because the array element that should have been the packet name was not a string."

/-- Error message constant from src/message.rs. -/
def UNREACHABLE_UNWRAP_FAILED : String :=
  "This unwrap while parsing a packet should never fail. Please contact the developers of NeoLegends/socketio-rs."

/-- Value of a list of decimal digit characters, most significant first. -/
def parseDigitsNat (l : List Char) : Nat :=
  l.foldl (fun a c => 10 * a + (c.toNat - 48)) 0

/-- Embedding of Rust `str::parse::<u32>` as used in `Message::from_str` for
the attachment count: optional leading plus sign, then one or more ASCII
digits, rejecting the empty string, any other character, and overflow.  Every
failure is delivered through `From<ParseIntError>`. -/
def parseU32 (l : List Char) : Except SocketError Nat :=
  match l with
  | [] => .error .parseIntError
  | c :: r =>
    let ds := if c = '+' then r else c :: r
    if ds.isEmpty then .error .parseIntError
    else if ds.all Char.isDigit then
      let v := parseDigitsNat ds
      if v < 4294967296 then .ok v else .error .parseIntError
    else .error .parseIntError

/-- Embedding of Rust `str::parse::<i32>` as used in `Message::from_str` for
the ack id: optional sign, then one or more ASCII digits, rejecting the empty
string, any other character, and out-of-range values. -/
def parseI32 (l : List Char) : Except SocketError Int :=
  match l with
  | [] => .error .parseIntError
  | c :: r =>
    let sgn : Int := if c = '-' then -1 else 1
    let ds := if c = '-' ∨ c = '+' then r else c :: r
    if ds.isEmpty then .error .parseIntError
    else if ds.all Char.isDigit then
      let v : Int := sgn * (parseDigitsNat ds : Nat)
      if -2147483648 ≤ v ∧ v ≤ 2147483647 then .ok v else .error .parseIntError
    else .error .parseIntError

/-- JSON whitespace as recognised by the external parser. -/
def isJsonWs (c : Char) : Bool :=
  c = ' ' || c = '\n' || c = '\t' || c = '\r'

/-- Drop leading JSON whitespace. -/
def skipWs (l : List Char) : List Char :=
  l.dropWhile isJsonWs

/-- Hexadecimal digit value. -/
def hexVal (c : Char) : Option Nat :=
  if '0' ≤ c ∧ c ≤ '9' then some (c.toNat - 48)
  else if 'a' ≤ c ∧ c ≤ 'f' then some (c.toNat - 87)
  else if 'A' ≤ c ∧ c ≤ 'F' then some (c.toNat - 55)
  else none

/-- Body of a JSON string literal (after the opening quote), fuelled by the
remaining input length.  Surrogate escapes are outside the model (no claim
touches them). -/
def parseStrAux : Nat → List Char → List Char → Except JErr (String × List Char)
  | 0, _, _ => .error .eofWhileParsing
  | _ + 1, [], _ => .error .eofWhileParsing
  | fuel + 1, c :: rest, acc =>
    if c = '"' then .ok (String.mk acc.reverse, rest)
    else if c = '\\' then
      match rest with
      | [] => .error .eofWhileParsing
      | e :: rest2 =>
        if e = '"' then parseStrAux fuel rest2 ('"' :: acc)
        else if e = '\\' then parseStrAux fuel rest2 ('\\' :: acc)
        else if e = '/' then parseStrAux fuel rest2 ('/' :: acc)
        else if e = 'b' then parseStrAux fuel rest2 ('\x08' :: acc)
        else if e = 'f' then parseStrAux fuel rest2 ('\x0c' :: acc)
        else if e = 'n' then parseStrAux fuel rest2 ('\n' :: acc)
        else if e = 'r' then parseStrAux fuel rest2 ('\r' :: acc)
        else if e = 't' then parseStrAux fuel rest2 ('\t' :: acc)
        else if e = 'u' then
          match rest2 with
          | h1 :: h2 :: h3 :: h4 :: rest3 =>
            match hexVal h1, hexVal h2, hexVal h3, hexVal h4 with
            | some a, some b, some c2, some d =>
              let n := ((a * 16 + b) * 16 + c2) * 16 + d
              if 55296 ≤ n ∧ n ≤ 57343 then .error .invalidEscape
              else if n < 1114112 then
                parseStrAux fuel rest3 (Char.ofNat n :: acc)
              else .error .invalidEscape
            | _, _, _, _ => .error .invalidEscape
          | _ => .error .eofWhileParsing
        else .error .invalidEscape
    else parseStrAux fuel rest (c :: acc)

/-- JSON number literal.  Integer literals map to `U64` (non-negative) or
`I64` (negative), mirroring the external parser; fraction/exponent forms
(`F64`) are outside the model. -/
def parseNumAux (l : List Char) : Except JErr (Json × List Char) :=
  let p : Bool × List Char := match l with
    | '-' :: r => (true, r)
    | _ => (false, l)
  match p.2 with
  | [] => .error .invalidNumber
  | c :: _ =>
    if ¬ c.isDigit then .error .invalidNumber
    else
      let digits := p.2.takeWhile Char.isDigit
      let rest := p.2.dropWhile Char.isDigit
      if c = '0' ∧ 1 < digits.length then .error .invalidNumber
      else
        match rest with
        | '.' :: _ => .error .invalidNumber
        | 'e' :: _ => .error .invalidNumber
        | 'E' :: _ => .error .invalidNumber
        | _ =>
          let v := parseDigitsNat digits
          if p.1 then
            if v ≤ 9223372036854775808 then .ok (.I64 (-(v : Int)), rest)
            else .error .invalidNumber
          else
            if v < 18446744073709551616 then .ok (.U64 v, rest)
            else .error .invalidNumber

/-- Lexicographic strict order on character lists by code point; on the
strings the codec handles this coincides with the byte order `BTreeMap` keys
are sorted by. -/
def ltCharList : List Char → List Char → Bool
  | [], [] => false
  | [], _ :: _ => true
  | _ :: _, [] => false
  | a :: as, b :: bs =>
    if a.toNat < b.toNat then true
    else if b.toNat < a.toNat then false
    else ltCharList as bs

/-- Strict order on strings used for object keys. -/
def strLt (a b : String) : Bool :=
  ltCharList a.data b.data

/-- Insert a key/value pair into a key-sorted association list, replacing an
existing binding (`BTreeMap::insert`). -/
def insertKV (k : String) (v : Json) : List (String × Json) → List (String × Json)
  | [] => [(k, v)]
  | (k2, v2) :: rest =>
    if strLt k k2 then (k, v) :: (k2, v2) :: rest
    else if k = k2 then (k, v) :: rest
    else (k2, v2) :: insertKV k v rest

mutual

/-- One JSON value, fuelled.  Models `rustc_serialize`'s recursive-descent
parser on the fragment the codec exercises. -/
def parseVal : Nat → List Char → Except JErr (Json × List Char)
  | 0, _ => .error .eofWhileParsing
  | fuel + 1, l =>
    match skipWs l with
    | [] => .error .eofWhileParsing
    | 'n' :: 'u' :: 'l' :: 'l' :: r => .ok (.Null, r)
    | 't' :: 'r' :: 'u' :: 'e' :: r => .ok (.Boolean true, r)
    | 'f' :: 'a' :: 'l' :: 's' :: 'e' :: r => .ok (.Boolean false, r)
    | '"' :: r =>
      match parseStrAux (r.length + 1) r [] with
      | .error e => .error e
      | .ok (s, rest) => .ok (.Str s, rest)
    | '[' :: r =>
      (match skipWs r with
       | ']' :: r2 => .ok (.Arr [], r2)
       | _ => match parseArrElems fuel (skipWs r) [] with
         | .error e => .error e
         | .ok (es, rest) => .ok (.Arr es, rest))
    | '\x7b' :: r =>
      (match skipWs r with
       | '\x7d' :: r2 => .ok (.Obj [], r2)
       | _ => match parseObjMembers fuel (skipWs r) [] with
         | .error e => .error e
         | .ok (kvs, rest) => .ok (.Obj kvs, rest))
    | c :: r =>
      if c = '-' ∨ c.isDigit then parseNumAux (c :: r)
      else .error .invalidSyntax

/-- Comma-separated array elements up to the closing bracket, fuelled. -/
def parseArrElems : Nat → List Char → List Json → Except JErr (List Json × List Char)
  | 0, _, _ => .error .eofWhileParsing
  | fuel + 1, l, acc =>
    match parseVal fuel l with
    | .error e => .error e
    | .ok (v, rest) =>
      match skipWs rest with
      | ',' :: r2 => parseArrElems fuel r2 (v :: acc)
      | ']' :: r2 => .ok ((v :: acc).reverse, r2)
      | _ => .error .invalidSyntax

/-- Comma-separated object members up to the closing brace, fuelled. -/
def parseObjMembers : Nat → List Char → List (String × Json) →
    Except JErr (List (String × Json) × List Char)
  | 0, _, _ => .error .eofWhileParsing
  | fuel + 1, l, acc =>
    match l with
    | '"' :: r =>
      (match parseStrAux (r.length + 1) r [] with
       | .error e => .error e
       | .ok (key, rest) =>
         match skipWs rest with
         | ':' :: r2 =>
           (match parseVal fuel r2 with
            | .error e => .error e
            | .ok (v, rest2) =>
              match skipWs rest2 with
              | ',' :: r3 =>
                (match skipWs r3 with
                 | '"' :: _ => parseObjMembers fuel (skipWs r3) (insertKV key v acc)
                 | _ => .error .keyMustBeAString)
              | '\x7d' :: r3 => .ok (insertKV key v acc, r3)
              | _ => .error .invalidSyntax)
         | _ => .error .expectedColon)
    | _ => .error .keyMustBeAString

end

/-- Embedding of `Builder::new(chars).build()`: parse one JSON value from the
remaining characters and require that only whitespace follows. -/
def builderBuild (l : List Char) : Except JErr Json :=
  match parseVal (2 * l.length + 2) l with
  | .error e => .error e
  | .ok (j, rest) =>
    match skipWs rest with
    | [] => .ok j
    | _ => .error .trailingCharacters

/-- Embedding of the `Body` enum of src/message.rs.  `u32`/`i32` fields are
`Nat`/`Int`; the parser enforces their ranges at the parse sites. -/
inductive Body where
  | Connect : Body
  | Disconnect : Body
  | Event : (data : Json) → (id : Option Int) → (name : String) → Body
  | Ack : (id : Int) → Body
  | Error : (data : Json) → Body
  | BinaryEvent : (attachment_count : Nat) → (data : Json) → (id : Option Int) →
      (name : String) → Body
  | BinaryAck : (id : Int) → Body

/-- Embedding of the `Message` struct.  The field `namespace` of the source is
called `nspace` here because `namespace` is a Lean keyword. -/
structure Message where
  body : Body
  nspace : String

/-- Embedding of `Message::_new`.  The source asserts
`nsp.starts_with(the slash character)`; the panic on violation is modelled by
returning `none`. -/
def Message._new (nsp : String) (body : Body) : Option Message :=
  match nsp.data with
  | '/' :: _ => some ⟨body, nsp⟩
  | _ => none

/-- Embedding of `Message::new`. -/
def Message.new (nsp : String) (body : Body) : Option Message :=
  Message._new nsp body

/-- Embedding of `Message::with_default_namespace`. -/
def Message.with_default_namespace (body : Body) : Option Message :=
  Message.new "/" body

/-- Attachment-count stage of `Message::from_str` (lines 81-89): for types
`5`/`6`, collect characters with `take_while(ch != the dash)` — which also
consumes the dash when present — and parse them as `u32`. -/
def parseAttCount (ch : Char) (l : List Char) : Except SocketError (Option Nat × List Char) :=
  if ch = '5' ∨ ch = '6' then
    match parseU32 (l.takeWhile (· != '-')) with
    | .error e => .error e
    | .ok n => .ok (some n, (l.dropWhile (· != '-')).drop 1)
  else .ok (none, l)

/-- Namespace stage of `Message::from_str` (lines 90-94): peek; on a slash,
collect with `take_while(ch != the comma)` (which also consumes the comma);
on any other character default to "/" consuming nothing; on end of input fail
with the unexpected-EOF error. -/
def parseNsp (l : List Char) : Except SocketError (String × List Char) :=
  match l with
  | [] => .error .unexpectedEof
  | c :: _ =>
    if c = '/' then
      .ok (String.mk (l.takeWhile (· != ',')), (l.dropWhile (· != ',')).drop 1)
    else .ok ("/", l)

/-- Ack-id stage of `Message::from_str` (lines 95-105): peek; on a digit,
collect with `take_while(is_digit)` — which also consumes the first non-digit
character when one follows the run — and parse as `i32`; on a non-digit fail
for types `3`/`6` and yield `none` for the others; on end of input fail with
the unexpected-EOF error. -/
def parseAckId (ch : Char) (l : List Char) : Except SocketError (Option Int × List Char) :=
  match l with
  | [] => .error .unexpectedEof
  | c :: _ =>
    if c.isDigit then
      match parseI32 (l.takeWhile Char.isDigit) with
      | .error e => .error e
      | .ok i => .ok (some i, (l.dropWhile Char.isDigit).drop 1)
    else if ch = '3' ∨ ch = '6' then .error (.invalidData ACK_PACKET_WITHOUT_ID)
    else .ok (none, l)

/-- JSON-body stage of `Message::from_str` (lines 106-109): for types
`2`/`4`/`5` parse the remaining characters as one JSON value. -/
def parseJsonBody (ch : Char) (l : List Char) : Except SocketError (Option Json) :=
  if ch = '2' ∨ ch = '4' ∨ ch = '5' then
    match builderBuild l with
    | .error e => .error (.jsonError e)
    | .ok j => .ok (some j)
  else .ok none

/-- Embedding of `get_name_and_body` (src/message.rs lines 190-209). -/
def get_name_and_body (json_body : Json) : Except SocketError (String × Json) :=
  match json_body with
  | .Arr [] => .error (.invalidData MESSAGE_PACKET_ARRAY_TOO_SHORT)
  | .Arr (first :: rest) =>
    (match first with
     | .Str name => .ok (name, match rest with
       | [] => .Null
       | b :: _ => b)
     | _ => .error (.invalidData MESSAGE_PACKET_NAME_NOT_STRING))
  | _ => .error (.invalidData MESSAGE_PACKET_ARRAY_MISSING)

/-- Body-construction stage of `Message::from_str` (lines 111-135).  The
`expect`/`unwrap` calls on fields the earlier stages must have produced are
modelled by the `panicked` outcome. -/
def buildBody (ch : Char) (attCount : Option Nat) (id : Option Int)
    (jsonBody : Option Json) : Except SocketError Body :=
  if ch = '0' then .ok .Connect
  else if ch = '1' then .ok .Disconnect
  else if ch = '2' then
    match jsonBody with
    | none => .error (.panicked UNREACHABLE_UNWRAP_FAILED)
    | some j =>
      match get_name_and_body j with
      | .error e => .error e
      | .ok nb => .ok (.Event nb.2 id nb.1)
  else if ch = '3' then
    match id with
    | some i => .ok (.Ack i)
    | none => .error (.panicked UNREACHABLE_UNWRAP_FAILED)
  else if ch = '4' then
    match jsonBody with
    | some j => .ok (.Error j)
    | none => .error (.panicked UNREACHABLE_UNWRAP_FAILED)
  else if ch = '5' then
    match jsonBody with
    | none => .error (.panicked UNREACHABLE_UNWRAP_FAILED)
    | some j =>
      match get_name_and_body j with
      | .error e => .error e
      | .ok nb =>
        match attCount with
        | some c => .ok (.BinaryEvent c nb.2 id nb.1)
        | none => .error (.panicked UNREACHABLE_UNWRAP_FAILED)
  else if ch = '6' then
    match id with
    | some i => .ok (.BinaryAck i)
    | none => .error (.panicked UNREACHABLE_UNWRAP_FAILED)
  else .error (.panicked UNREACHABLE_UNWRAP_FAILED)

/-- Embedding of `<Message as FromStr>::from_str` (src/message.rs lines
77-143) over the character list of the input. -/
def Message.fromChars : List Char → Except SocketError Message
  | [] => .error .unexpectedEof
  | ch :: rest =>
    if '0' ≤ ch ∧ ch ≤ '6' then
      match parseAttCount ch rest with
      | .error e => .error e
      | .ok al =>
        match parseNsp al.2 with
        | .error e => .error e
        | .ok nl =>
          match parseAckId ch nl.2 with
          | .error e => .error e
          | .ok il =>
            match parseJsonBody ch il.2 with
            | .error e => .error e
            | .ok jsonBody =>
              match buildBody ch al.1 il.1 jsonBody with
              | .error e => .error e
              | .ok body =>
                match Message._new nl.1 body with
                | some m => .ok m
                | none => .error (.panicked "namespace assertion failed")
    else
      .error (.invalidData
        ("Message type could not be parsed because an illegal character was read: " ++
          String.singleton ch ++ ". Legal values are in the range of [0, 6]."))

/-- Embedding of `Message::from_str` on a string. -/
def Message.fromStr (s : String) : Except SocketError Message :=
  Message.fromChars s.data

/-- Fuelled worker for decimal rendering; the fuel only needs to dominate the
digit count, so `natDecimal` feeds it the number itself. -/
def natDecimalAux : Nat → Nat → List Char
  | 0, n => [Nat.digitChar (n % 10)]
  | fuel + 1, n =>
    if n < 10 then [Nat.digitChar n]
    else natDecimalAux fuel (n / 10) ++ [Nat.digitChar (n % 10)]

/-- Decimal digits of a natural number, most significant first (the rendering
`Display for u32`/`i32` produces for non-negative values). -/
def natDecimal (n : Nat) : List Char :=
  natDecimalAux n n

/-- Decimal rendering of an integer (`Display for i32`). -/
def intDecimal (i : Int) : List Char :=
  if i < 0 then '-' :: natDecimal (-i).toNat else natDecimal i.toNat

/-- JSON string escaping of the external encoder: quote, backslash and control
characters are escaped, everything else is copied. -/
def escapeChars : List Char → List Char
  | [] => []
  | c :: rest =>
    if c = '"' then '\\' :: '"' :: escapeChars rest
    else if c = '\\' then '\\' :: '\\' :: escapeChars rest
    else if c = '\n' then '\\' :: 'n' :: escapeChars rest
    else if c = '\r' then '\\' :: 'r' :: escapeChars rest
    else if c = '\t' then '\\' :: 't' :: escapeChars rest
    else if c = '\x08' then '\\' :: 'b' :: escapeChars rest
    else if c = '\x0c' then '\\' :: 'f' :: escapeChars rest
    else if c.toNat < 32 then
      '\\' :: 'u' :: '0' :: '0' :: Nat.digitChar (c.toNat / 16) :: Nat.digitChar (c.toNat % 16) :: []
        ++ escapeChars rest
    else c :: escapeChars rest

/-- Comma-join of rendered pieces. -/
def joinComma : List (List Char) → List Char
  | [] => []
  | [x] => x
  | x :: y :: rest => x ++ ',' :: joinComma (y :: rest)

mutual

/-- Modelled from the spec: JSON serialization of the payload, the one
external capability the encode direction depends on (§4.1: failure modes
"inherent in JSON serialization" do not arise on this model's `Json`
fragment, so serialization is total). -/
def serializeJson : Json → List Char
  | .Null => 'n' :: 'u' :: 'l' :: 'l' :: []
  | .Boolean true => 't' :: 'r' :: 'u' :: 'e' :: []
  | .Boolean false => 'f' :: 'a' :: 'l' :: 's' :: 'e' :: []
  | .U64 n => natDecimal n
  | .I64 i => intDecimal i
  | .Str s => '"' :: escapeChars s.data ++ ['"']
  | .Arr l => '[' :: joinComma (serializeList l) ++ [']']
  | .Obj kvs => '\x7b' :: joinComma (serializeMembers kvs) ++ ['\x7d']

/-- Renderings of the elements of a JSON array. -/
def serializeList : List Json → List (List Char)
  | [] => []
  | j :: rest => serializeJson j :: serializeList rest

/-- Renderings of the members of a JSON object. -/
def serializeMembers : List (String × Json) → List (List Char)
  | [] => []
  | kv :: rest =>
    ('"' :: escapeChars kv.1.data ++ '"' :: ':' :: serializeJson kv.2) :: serializeMembers rest

end

/-- Rendering of an optional ack id. -/
def idPart : Option Int → List Char
  | none => []
  | some i => intDecimal i

/-- Modelled from the spec: the encode direction (§4.1 "Reverse direction"
and §6 Outbound), which the inspected source does not implement.  It is the
pure total function producing the field order type-digit,
attachment-count(+dash), namespace(+comma), id, JSON-body, emitting each
optional field only when the variant carries it: the attachment count only
for `BinaryEvent` (the only variant carrying one), the namespace only when it
differs from the default `/` (the wire form §6 omits an absent namespace and
the decoder defaults it), the id only when present, and the JSON body only
for the three JSON-carrying types, with an `Event`/`BinaryEvent` body
serialized as the array `[name, data]`. -/
def encodeMessage (m : Message) : String :=
  let nspPart : List Char := if m.nspace = "/" then [] else m.nspace.data ++ [',']
  String.mk
    (match m.body with
     | .Connect => '0' :: nspPart
     | .Disconnect => '1' :: nspPart
     | .Event data id name =>
       '2' :: nspPart ++ idPart id ++ serializeJson (.Arr [.Str name, data])
     | .Ack i => '3' :: nspPart ++ intDecimal i
     | .Error data => '4' :: nspPart ++ serializeJson data
     | .BinaryEvent c data id name =>
       '5' :: natDecimal c ++ '-' :: nspPart ++ idPart id ++ serializeJson (.Arr [.Str name, data])
     | .BinaryAck i => '6' :: nspPart ++ intDecimal i)

/-- Placeholder test of `_reconstruct` (lines 222-233): the node is a
placeholder when `_placeholder` maps to boolean `true` and `num` maps to a
`U64` or `I64` number; the `num as usize` cast wraps an `I64` value modulo
2^64 (64-bit `usize`). -/
def placeholderIndex (kvs : List (String × Json)) : Option Nat :=
  match List.lookup "_placeholder" kvs with
  | some (.Boolean true) =>
    (match List.lookup "num" kvs with
     | some (.U64 n) => some n
     | some (.I64 i) => some ((i % 18446744073709551616).toNat)
     | _ => none)
  | _ => none

/-- `Vec<u8>::to_json()`: a binary buffer becomes a JSON array of its byte
values. -/
def bufToJson (v : List Nat) : Json :=
  .Arr (v.map Json.U64)

/-- Short-circuiting in-order traversal: the `for value in ... { try!(...) }`
loops of `_reconstruct`, which stop at the first faulting child. -/
def mapMExcept {α β : Type} (f : α → Except SocketError β) : List α → Except SocketError (List β)
  | [] => .ok []
  | x :: xs =>
    match f x with
    | .error e => .error e
    | .ok y =>
      match mapMExcept f xs with
      | .error e => .error e
      | .ok ys => .ok (y :: ys)

/-- Worker of `_reconstruct` (src/message.rs lines 211-264), phrased over the
remaining depth budget `fuel = max_depth - depth`: `depth >= max_depth`
(fuel zero) stops and returns the subtree unchanged; a placeholder object is
replaced by the indexed attachment or faults; other objects and arrays recurse
into their children with one less budget; scalars are untouched. -/
def reconstructGo (attachments : List (List Nat)) : Nat → Json → Except SocketError Json
  | 0, body => .ok body
  | fuel + 1, body =>
    match body with
    | .Obj kvs =>
      (match placeholderIndex kvs with
       | some index =>
         (match attachments[index]? with
          | some vec => .ok (bufToJson vec)
          | none => .error (.invalidData ATTACHMENT_ARRAY_TOO_SHORT))
       | none =>
         match mapMExcept (fun kv => (reconstructGo attachments fuel kv.2).map (fun v => (kv.1, v))) kvs with
         | .error e => .error e
         | .ok kvs2 => .ok (.Obj kvs2))
    | .Arr elems =>
      (match mapMExcept (reconstructGo attachments fuel) elems with
       | .error e => .error e
       | .ok elems2 => .ok (.Arr elems2))
    | other => .ok other

/-- Within the given depth budget, every placeholder-shaped object node names
an attachment index below `attLen`.  This is the caller-side condition under
which the depth-bounded rewrite cannot fault. -/
def noMissingAttachments (attLen : Nat) : Nat → Json → Bool
  | 0, _ => true
  | fuel + 1, j =>
    match j with
    | .Obj kvs =>
      (match placeholderIndex kvs with
       | some index => decide (index < attLen)
       | none => kvs.all (fun kv => noMissingAttachments attLen fuel kv.2))
    | .Arr elems => elems.all (noMissingAttachments attLen fuel)
    | _ => true

/-- Embedding of `_reconstruct` (lines 211-264).  The in-place mutation is
modelled by returning the rewritten tree. -/
def _reconstruct (body : Json) (attachments : List (List Nat)) (max_depth depth : Nat) :
    Except SocketError Json :=
  reconstructGo attachments (max_depth - depth) body

/-- Embedding of the free function `reconstruct` (lines 186-188). -/
def reconstruct (body : Json) (attachments : List (List Nat)) (max_depth : Nat) :
    Except SocketError Json :=
  _reconstruct body attachments max_depth 0

/-- Embedding of `Message::reconstruct` (lines 63-70): on a `BinaryEvent`
body, `assert!(attachment_count >= attachments.len())` (panic modelled by
`panicked`) and then rewrite the payload with `max_depth = 512`; on every
other body, `Ok(())` with the message untouched. -/
def Message.reconstruct (m : Message) (attachments : List (List Nat)) :
    Except SocketError Message :=
  match m.body with
  | .BinaryEvent attachment_count data id name =>
    if attachment_count < attachments.length then
      .error (.panicked "Not enough attachments!")
    else
      match _reconstruct data attachments 512 0 with
      | .error e => .error e
      | .ok data2 => .ok ⟨.BinaryEvent attachment_count data2 id name, m.nspace⟩
  | _ => .ok m

/-! ## Helper lemmas -/

lemma takeWhile_eq_self_of_all {α} {p : α → Bool} {l : List α} (h : ∀ x ∈ l, p x = true) :
    l.takeWhile p = l :=
  List.takeWhile_eq_self_iff.mpr h

lemma dropWhile_eq_nil_of_all {α} {p : α → Bool} {l : List α} (h : ∀ x ∈ l, p x = true) :
    l.dropWhile p = [] :=
  List.dropWhile_eq_nil_iff.mpr h

lemma takeWhile_append_stop {α} (p : α → Bool) :
    ∀ (l : List α) (y : α) (rest : List α), (∀ x ∈ l, p x = true) → p y = false →
      (l ++ y :: rest).takeWhile p = l := by
  intro l y rest h hy
  induction l with
  | nil => simp [List.takeWhile_cons, hy]
  | cons a as ih =>
    have ha := h a (List.mem_cons_self a as)
    simp only [List.cons_append, List.takeWhile_cons, ha, if_true]
    rw [ih (fun x hx => h x (List.mem_cons_of_mem a hx))]

lemma dropWhile_append_stop {α} (p : α → Bool) :
    ∀ (l : List α) (y : α) (rest : List α), (∀ x ∈ l, p x = true) → p y = false →
      (l ++ y :: rest).dropWhile p = y :: rest := by
  intro l y rest h hy
  induction l with
  | nil => simp [List.dropWhile_cons, hy]
  | cons a as ih =>
    have ha := h a (List.mem_cons_self a as)
    simp only [List.cons_append, List.dropWhile_cons, ha, if_true]
    exact ih (fun x hx => h x (List.mem_cons_of_mem a hx))

lemma isDigit_ne_special {c : Char} (h : c.isDigit = true) :
    c ≠ '/' ∧ c ≠ '-' ∧ c ≠ '+' ∧ c ≠ ',' := by
  refine ⟨?_, ?_, ?_, ?_⟩ <;> intro he <;> subst he <;> exact absurd h (by decide)

lemma digitChar_isDigit : ∀ n, n < 10 → (Nat.digitChar n).isDigit = true := by decide

lemma digitChar_toNat : ∀ n, n < 10 → (Nat.digitChar n).toNat = n + 48 := by decide

lemma natDecimalAux_ne_nil : ∀ fuel n, natDecimalAux fuel n ≠ [] := by
  intro fuel n
  cases fuel with
  | zero => simp [natDecimalAux]
  | succ f =>
    by_cases h : n < 10 <;> simp [natDecimalAux, h]

lemma natDecimalAux_digits : ∀ fuel n c, c ∈ natDecimalAux fuel n → c.isDigit = true := by
  intro fuel
  induction fuel with
  | zero =>
    intro n c hc
    simp [natDecimalAux] at hc
    subst hc
    exact digitChar_isDigit _ (Nat.mod_lt _ (by omega))
  | succ f ih =>
    intro n c hc
    by_cases h : n < 10
    · simp [natDecimalAux, h] at hc
      subst hc
      exact digitChar_isDigit _ h
    · simp [natDecimalAux, h] at hc
      rcases hc with hc | hc
      · exact ih _ _ hc
      · subst hc
        exact digitChar_isDigit _ (Nat.mod_lt _ (by omega))

lemma parseDigitsNat_append_one (l : List Char) (c : Char) :
    parseDigitsNat (l ++ [c]) = 10 * parseDigitsNat l + (c.toNat - 48) := by
  simp [parseDigitsNat, List.foldl_append]

lemma natDecimalAux_value : ∀ fuel n, n < 10 ^ (fuel + 1) →
    parseDigitsNat (natDecimalAux fuel n) = n := by
  intro fuel
  induction fuel with
  | zero =>
    intro n hn
    have h10 : n < 10 := by simpa using hn
    rw [natDecimalAux, Nat.mod_eq_of_lt h10]
    simp only [parseDigitsNat, List.foldl]
    rw [digitChar_toNat n h10]
    omega
  | succ f ih =>
    intro n hn
    by_cases h : n < 10
    · rw [natDecimalAux, if_pos h]
      simp only [parseDigitsNat, List.foldl]
      rw [digitChar_toNat n h]
      omega
    · have hdiv : n / 10 < 10 ^ (f + 1) := by
        rw [Nat.div_lt_iff_lt_mul (by omega)]
        calc n < 10 ^ (f + 1 + 1) := hn
        _ = 10 ^ (f + 1) * 10 := by rw [pow_succ]
      rw [natDecimalAux, if_neg h, parseDigitsNat_append_one, ih _ hdiv,
        digitChar_toNat (n % 10) (Nat.mod_lt _ (by omega))]
      omega

lemma natDecimal_value (n : Nat) : parseDigitsNat (natDecimal n) = n := by
  have h1 : n < 10 ^ n := Nat.lt_pow_self (by omega) n
  have h2 : (10 : Nat) ^ n ≤ 10 ^ (n + 1) := Nat.pow_le_pow_right (by omega) (by omega)
  exact natDecimalAux_value n n (lt_of_lt_of_le h1 h2)

lemma natDecimal_digits {n : Nat} {c : Char} (hc : c ∈ natDecimal n) : c.isDigit = true :=
  natDecimalAux_digits n n c hc

lemma natDecimal_cons (n : Nat) : ∃ c t, natDecimal n = c :: t ∧ c.isDigit = true := by
  cases h : natDecimal n with
  | nil => exact absurd h (natDecimalAux_ne_nil n n)
  | cons c t =>
    refine ⟨c, t, rfl, @natDecimal_digits n c ?_⟩
    rw [h]
    exact List.mem_cons_self c t

lemma mapMExcept_error_mem {α β : Type} (f : α → Except SocketError β) :
    ∀ (l : List α) (e : SocketError), mapMExcept f l = .error e → ∃ x ∈ l, f x = .error e := by
  intro l
  induction l with
  | nil => intro e h; simp [mapMExcept] at h
  | cons a as ih =>
    intro e h
    rw [mapMExcept] at h
    cases ha : f a with
    | error e2 =>
      rw [ha] at h
      cases h
      exact ⟨a, List.mem_cons_self a as, ha⟩
    | ok b =>
      rw [ha] at h
      cases hm : mapMExcept f as with
      | error e2 =>
        rw [hm] at h
        cases h
        obtain ⟨x, hx, hfx⟩ := ih _ hm
        exact ⟨x, List.mem_cons_of_mem a hx, hfx⟩
      | ok bs =>
        rw [hm] at h
        cases h

lemma mapMExcept_ok_of_all {α β : Type} (f : α → Except SocketError β) :
    ∀ l : List α, (∀ x ∈ l, ∃ y, f x = .ok y) → ∃ ys, mapMExcept f l = .ok ys := by
  intro l
  induction l with
  | nil => intro _; exact ⟨[], rfl⟩
  | cons a as ih =>
    intro h
    obtain ⟨b, hb⟩ := h a (List.mem_cons_self a as)
    obtain ⟨bs, hbs⟩ := ih (fun x hx => h x (List.mem_cons_of_mem a hx))
    refine ⟨b :: bs, ?_⟩
    rw [mapMExcept, hb, hbs]

lemma reconstructGo_error_shape (atts : List (List Nat)) :
    ∀ (fuel : Nat) (j : Json) (e : SocketError), reconstructGo atts fuel j = .error e →
      e = .invalidData ATTACHMENT_ARRAY_TOO_SHORT := by
  intro fuel
  induction fuel with
  | zero => intro j e h; simp [reconstructGo] at h
  | succ f ih =>
    intro j e h
    cases j with
    | Obj kvs =>
      simp only [reconstructGo] at h
      cases hpi : placeholderIndex kvs with
      | some idx =>
        simp only [hpi] at h
        cases hga : atts[idx]? with
        | some v => simp only [hga] at h; simp at h
        | none => simp only [hga] at h; cases h; rfl
      | none =>
        simp only [hpi] at h
        cases hm : mapMExcept (fun kv => (reconstructGo atts f kv.2).map (fun v => (kv.1, v))) kvs with
        | error e2 =>
          simp only [hm] at h
          cases h
          obtain ⟨kv, _, hkv⟩ := mapMExcept_error_mem _ kvs _ hm
          cases hr : reconstructGo atts f kv.2 with
          | error e3 =>
            rw [hr] at hkv
            simp only [Except.map] at hkv
            cases hkv
            exact ih kv.2 _ hr
          | ok v => rw [hr] at hkv; simp [Except.map] at hkv
        | ok kvs2 => simp only [hm] at h; simp at h
    | Arr elems =>
      simp only [reconstructGo] at h
      cases hm : mapMExcept (reconstructGo atts f) elems with
      | error e2 =>
        simp only [hm] at h
        cases h
        obtain ⟨x, _, hx⟩ := mapMExcept_error_mem _ elems _ hm
        exact ih x _ hx
      | ok elems2 => simp only [hm] at h; simp at h
    | Null => simp [reconstructGo] at h
    | Boolean b => simp [reconstructGo] at h
    | I64 i => simp [reconstructGo] at h
    | U64 n => simp [reconstructGo] at h
    | Str s => simp [reconstructGo] at h

lemma reconstructGo_ok_of_noMissing (atts : List (List Nat)) :
    ∀ (fuel : Nat) (j : Json), noMissingAttachments atts.length fuel j = true →
      ∃ j2, reconstructGo atts fuel j = .ok j2 := by
  intro fuel
  induction fuel with
  | zero => intro j _; exact ⟨j, rfl⟩
  | succ f ih =>
    intro j hok
    cases j with
    | Obj kvs =>
      simp only [noMissingAttachments] at hok
      cases hpi : placeholderIndex kvs with
      | some idx =>
        simp only [hpi, decide_eq_true_eq] at hok
        have hga : atts[idx]? = some atts[idx] := List.getElem?_eq_getElem hok
        exact ⟨bufToJson atts[idx], by simp only [reconstructGo, hpi, hga]⟩
      | none =>
        simp only [hpi] at hok
        rw [List.all_eq_true] at hok
        have hall : ∀ kv ∈ kvs, ∃ y,
            (reconstructGo atts f kv.2).map (fun v => (kv.1, v)) = .ok y := by
          intro kv hkv
          obtain ⟨j2, hj2⟩ := ih kv.2 (hok kv hkv)
          exact ⟨(kv.1, j2), by rw [hj2]; rfl⟩
        obtain ⟨ys, hys⟩ := mapMExcept_ok_of_all _ kvs hall
        exact ⟨.Obj ys, by simp only [reconstructGo, hpi, hys]⟩
    | Arr elems =>
      simp only [noMissingAttachments] at hok
      rw [List.all_eq_true] at hok
      have hall : ∀ x ∈ elems, ∃ y, reconstructGo atts f x = .ok y :=
        fun x hx => ih x (hok x hx)
      obtain ⟨ys, hys⟩ := mapMExcept_ok_of_all _ elems hall
      exact ⟨.Arr ys, by simp only [reconstructGo, hys]⟩
    | Null => exact ⟨.Null, rfl⟩
    | Boolean b => exact ⟨.Boolean b, rfl⟩
    | I64 i => exact ⟨.I64 i, rfl⟩
    | U64 n => exact ⟨.U64 n, rfl⟩
    | Str s => exact ⟨.Str s, rfl⟩

/-! ## Claim theorems -/

/-- C3: the claim is right and the code is wrong (code bug).  On the Event
text `21["x"]` — type digit `2`, ack-id digit run `1`, then a valid JSON
array — the parser does not consume "exactly the maximal run of decimal
digits and nothing more": the `take_while(is_digit)` call also consumes the
`[` that opens the JSON body, so the remaining characters parse as the string
`"x"` followed by a stray `]` and the decode fails with the JSON
trailing-characters error instead of succeeding with id 1.  The third
conjunct exhibits the swallowed bracket at the ack-id stage itself; the
second shows the same packet without an id parses fine. -/
theorem c3_ack_id_swallows_bracket :
    Message.fromStr "21[\"x\"]" = .error (.jsonError .trailingCharacters) ∧
    Message.fromStr "2[\"x\"]" = .ok ⟨.Event .Null none "x", "/"⟩ ∧
    parseAckId '2' ('1' :: '[' :: '"' :: 'x' :: '"' :: ']' :: []) =
      .ok (some 1, '"' :: 'x' :: '"' :: ']' :: []) :=
  ⟨rfl, rfl, rfl⟩

/-- C4: `2["name"]` decodes to `Event` with `data = null` and `id = none`;
`2[]` fails with the array-too-short error; `2{"x":1}` fails with the
array-missing error; `2[42,"x"]` fails with the name-not-string error; and
the three error messages are pairwise distinct. -/
theorem c4_event_payload_shape :
    Message.fromStr "2[\"name\"]" = .ok ⟨.Event .Null none "name", "/"⟩ ∧
    Message.fromStr "2[]" = .error (.invalidData MESSAGE_PACKET_ARRAY_TOO_SHORT) ∧
    Message.fromStr "2\x7b\"x\":1\x7d" = .error (.invalidData MESSAGE_PACKET_ARRAY_MISSING) ∧
    Message.fromStr "2[42,\"x\"]" = .error (.invalidData MESSAGE_PACKET_NAME_NOT_STRING) ∧
    MESSAGE_PACKET_ARRAY_TOO_SHORT ≠ MESSAGE_PACKET_ARRAY_MISSING ∧
    MESSAGE_PACKET_ARRAY_TOO_SHORT ≠ MESSAGE_PACKET_NAME_NOT_STRING ∧
    MESSAGE_PACKET_ARRAY_MISSING ≠ MESSAGE_PACKET_NAME_NOT_STRING :=
  ⟨rfl, rfl, rfl, rfl, by decide, by decide, by decide⟩

/-- C5: at an object node matching the placeholder shape, within the depth
bound, the whole node is replaced by the indexed attachment's bytes when the
index is in range, and reconstruction fails with the
attachment-array-too-short error when it is out of range; the flat example
`[placeholder 0]` with attachments `[[1,2,3]]` rebuilds to `[[1,2,3]]`. -/
theorem c5_placeholder_replacement :
    (∀ (kvs : List (String × Json)) (atts : List (List Nat)) (maxd d k : Nat),
        d < maxd → placeholderIndex kvs = some k →
        (∀ _ : k < atts.length,
          _reconstruct (.Obj kvs) atts maxd d = .ok (bufToJson atts[k])) ∧
        (atts.length ≤ k →
          _reconstruct (.Obj kvs) atts maxd d =
            .error (.invalidData ATTACHMENT_ARRAY_TOO_SHORT))) ∧
    reconstruct (.Arr [.Obj [("_placeholder", .Boolean true), ("num", .U64 0)]]) [[1, 2, 3]] 512 =
      .ok (.Arr [.Arr [.U64 1, .U64 2, .U64 3]]) := by
  constructor
  · intro kvs atts maxd d k hd hpi
    obtain ⟨f, hf⟩ : ∃ f, maxd - d = f + 1 := ⟨maxd - d - 1, by omega⟩
    constructor
    · intro hk
      have hga : atts[k]? = some atts[k] := List.getElem?_eq_getElem hk
      simp only [_reconstruct, hf, reconstructGo, hpi, hga]
    · intro hk
      have hga : atts[k]? = none := List.getElem?_eq_none hk
      simp only [_reconstruct, hf, reconstructGo, hpi, hga]
  · rfl

/-- Witness for C5 at concrete inputs: index 0 in range with one attachment,
index 7 out of range. -/
theorem c5_placeholder_replacement_witness :
    _reconstruct (.Obj [("_placeholder", .Boolean true), ("num", .U64 0)]) [[5]] 512 0 =
      .ok (.Arr [.U64 5]) ∧
    _reconstruct (.Obj [("_placeholder", .Boolean true), ("num", .U64 7)]) [[5]] 512 0 =
      .error (.invalidData ATTACHMENT_ARRAY_TOO_SHORT) :=
  ⟨(c5_placeholder_replacement.1 [("_placeholder", .Boolean true), ("num", .U64 0)]
      [[5]] 512 0 0 (by omega) rfl).1 (by decide),
   (c5_placeholder_replacement.1 [("_placeholder", .Boolean true), ("num", .U64 7)]
      [[5]] 512 0 7 (by omega) rfl).2 (by decide)⟩

/-- C6 counterexample: the claim says reconstruction "returns success" for
every payload and attachment sequence, but an in-bound placeholder whose
index is out of range makes it fail. -/
theorem c6_counterexample_not_always_ok :
    reconstruct (.Arr [.Obj [("_placeholder", .Boolean true), ("num", .U64 0)]]) [] 512 =
      .error (.invalidData ATTACHMENT_ARRAY_TOO_SHORT) ∧
    ∀ j2 : Json,
      (Except.error (SocketError.invalidData ATTACHMENT_ARRAY_TOO_SHORT) : Except SocketError Json)
        ≠ .ok j2 :=
  ⟨rfl, fun _ h => Except.noConfusion h⟩

/-- C6 amended: every node at depth at least `max_depth` is left unchanged
with success (so placeholders beyond the bound are neither replaced nor a
source of errors); `Message::reconstruct` runs the rewrite with
`max_depth = 512`; and the rewrite returns success whenever every
placeholder within the depth bound has an in-range attachment index. -/
theorem c6_depth_bound :
    (∀ (j : Json) (atts : List (List Nat)) (maxd d : Nat), maxd ≤ d →
        _reconstruct j atts maxd d = .ok j) ∧
    (∀ (nsp : String) (c : Nat) (dat : Json) (i : Option Int) (n : String)
        (atts : List (List Nat)), atts.length ≤ c →
        Message.reconstruct ⟨.BinaryEvent c dat i n, nsp⟩ atts =
          match reconstruct dat atts 512 with
          | .error e => .error e
          | .ok d2 => .ok ⟨.BinaryEvent c d2 i n, nsp⟩) ∧
    (∀ (j : Json) (atts : List (List Nat)) (maxd : Nat),
        noMissingAttachments atts.length maxd j = true →
        ∃ j2, reconstruct j atts maxd = .ok j2) := by
  refine ⟨?_, ?_, ?_⟩
  · intro j atts maxd d h
    simp only [_reconstruct, Nat.sub_eq_zero_of_le h, reconstructGo]
  · intro nsp c dat i n atts h
    simp only [Message.reconstruct]
    rw [if_neg (by omega)]
    rfl
  · intro j atts maxd h
    exact reconstructGo_ok_of_noMissing atts maxd j h

/-- Witness for C6 amended: a placeholder sitting exactly at the depth bound
is returned unchanged; a binary event with enough declared attachments runs
the 512-bounded rewrite; a flat in-range payload reconstructs successfully. -/
theorem c6_depth_bound_witness :
    _reconstruct (.Obj [("_placeholder", .Boolean true), ("num", .U64 0)]) [] 5 5 =
      .ok (.Obj [("_placeholder", .Boolean true), ("num", .U64 0)]) ∧
    Message.reconstruct ⟨.BinaryEvent 1 .Null none "x", "/"⟩ [] = .ok ⟨.BinaryEvent 1 .Null none "x", "/"⟩ ∧
    ∃ j2, reconstruct (.Arr [.Obj [("_placeholder", .Boolean true), ("num", .U64 0)]]) [[9]] 512 =
      .ok j2 :=
  ⟨c6_depth_bound.1 _ [] 5 5 (by omega),
   c6_depth_bound.2.1 "/" 1 .Null none "x" [] (by decide),
   c6_depth_bound.2.2 _ [[9]] 512 rfl⟩

/-- C8: `Message::reconstruct` enforces the caller precondition
`attachment_count >= attachments.len()` with an unrecoverable assertion
(modelled by the `panicked` outcome, not a recoverable error value); under
the precondition the assertion branch is unreachable and reconstruction
proceeds normally, and no recoverable outcome of the rewrite is ever the
`panicked` marker (its only error is the attachment-array-too-short value). -/
theorem c8_assertion_guard :
    (∀ (nsp : String) (c : Nat) (dat : Json) (i : Option Int) (n : String)
        (atts : List (List Nat)), c < atts.length →
        Message.reconstruct ⟨.BinaryEvent c dat i n, nsp⟩ atts =
          .error (.panicked "Not enough attachments!")) ∧
    (∀ (nsp : String) (c : Nat) (dat : Json) (i : Option Int) (n : String)
        (atts : List (List Nat)), atts.length ≤ c →
        (∀ e, _reconstruct dat atts 512 0 = .error e →
          Message.reconstruct ⟨.BinaryEvent c dat i n, nsp⟩ atts = .error e ∧
            e = .invalidData ATTACHMENT_ARRAY_TOO_SHORT) ∧
        (∀ d2, _reconstruct dat atts 512 0 = .ok d2 →
          Message.reconstruct ⟨.BinaryEvent c dat i n, nsp⟩ atts =
            .ok ⟨.BinaryEvent c d2 i n, nsp⟩)) := by
  constructor
  · intro nsp c dat i n atts h
    simp only [Message.reconstruct]
    rw [if_pos h]
  · intro nsp c dat i n atts h
    constructor
    · intro e he
      constructor
      · simp only [Message.reconstruct]
        rw [if_neg (by omega), he]
      · exact reconstructGo_error_shape atts _ dat e he
    · intro d2 hd2
      simp only [Message.reconstruct]
      rw [if_neg (by omega), hd2]

/-- Witness for C8: with fewer declared attachments than buffers the call
aborts; with enough declared attachments it completes normally. -/
theorem c8_assertion_guard_witness :
    Message.reconstruct ⟨.BinaryEvent 0 .Null none "x", "/"⟩ [[1]] =
      .error (.panicked "Not enough attachments!") ∧
    Message.reconstruct ⟨.BinaryEvent 1 .Null none "x", "/"⟩ [[1]] =
      .ok ⟨.BinaryEvent 1 .Null none "x", "/"⟩ :=
  ⟨c8_assertion_guard.1 "/" 0 .Null none "x" [[1]] (by decide),
   (c8_assertion_guard.2 "/" 1 .Null none "x" [[1]] (by decide)).2 .Null rfl⟩

/-- C9: on every message whose body is not a `BinaryEvent`,
`Message::reconstruct` returns success and leaves the whole message —
namespace and body — unchanged, whatever attachments are supplied. -/
theorem c9_reconstruct_noop_nonbinary (m : Message) (atts : List (List Nat))
    (h : ∀ c d i n, m.body ≠ Body.BinaryEvent c d i n) :
    Message.reconstruct m atts = .ok m := by
  obtain ⟨body, nsp⟩ := m
  cases body with
  | BinaryEvent c d i n => exact absurd rfl (h c d i n)
  | Connect => rfl
  | Disconnect => rfl
  | Event d i n => rfl
  | Ack i => rfl
  | Error d => rfl
  | BinaryAck i => rfl

/-- Witness for C9 on a concrete non-binary message and non-empty
attachment list. -/
theorem c9_reconstruct_noop_nonbinary_witness :
    Message.reconstruct ⟨.Event (.U64 3) (some 1) "e", "/chat"⟩ [[1, 2]] =
      .ok ⟨.Event (.U64 3) (some 1) "e", "/chat"⟩ :=
  c9_reconstruct_noop_nonbinary ⟨.Event (.U64 3) (some 1) "e", "/chat"⟩ [[1, 2]]
    (fun _ _ _ _ h => Body.noConfusion h)

/-- C10 counterexample: the claim says every one-character input holding a
valid type digit fails with the unexpected-end-of-input error, but "5" (and
"6") fail earlier, in the attachment-count stage, whose empty digit run is an
integer-parse error, not the EOF error. -/
theorem c10_counterexample_bare_five :
    Message.fromStr "5" = .error .parseIntError ∧
    SocketError.parseIntError ≠ SocketError.unexpectedEof :=
  ⟨rfl, by decide⟩

/-- C10 amended: a bare type digit `0`–`4` fails with the
unexpected-end-of-input error (the parser insists on at least one character
after the type digit); a bare `5` or `6` fails with the attachment-count
integer-parse error instead. -/
theorem c10_bare_type_digit :
    Message.fromStr "0" = .error .unexpectedEof ∧
    Message.fromStr "1" = .error .unexpectedEof ∧
    Message.fromStr "2" = .error .unexpectedEof ∧
    Message.fromStr "3" = .error .unexpectedEof ∧
    Message.fromStr "4" = .error .unexpectedEof ∧
    Message.fromStr "5" = .error .parseIntError ∧
    Message.fromStr "6" = .error .parseIntError :=
  ⟨rfl, rfl, rfl, rfl, rfl, rfl, rfl⟩

/-! ## Parser stage lemmas -/

lemma parseAttCount_nonbinary {ch : Char} (h : ¬(ch = '5' ∨ ch = '6')) (l : List Char) :
    parseAttCount ch l = .ok (none, l) := by
  simp only [parseAttCount]
  rw [if_neg h]

lemma parseNsp_default {c : Char} (h : c ≠ '/') (r : List Char) :
    parseNsp (c :: r) = .ok ("/", c :: r) := by
  simp only [parseNsp]
  rw [if_neg h]

lemma parseAckId_nil_eof (ch : Char) : parseAckId ch [] = .error .unexpectedEof := rfl

lemma parseAckId_mandatory {ch c : Char} (hch : ch = '3' ∨ ch = '6') (hc : c.isDigit = false)
    (r : List Char) : parseAckId ch (c :: r) = .error (.invalidData ACK_PACKET_WITHOUT_ID) := by
  simp only [parseAckId]
  rw [if_neg (by simp [hc]), if_pos hch]

lemma parseAckId_optional {ch c : Char} (hc : c.isDigit = false) (h3 : ch ≠ '3') (h6 : ch ≠ '6')
    (r : List Char) : parseAckId ch (c :: r) = .ok (none, c :: r) := by
  simp only [parseAckId]
  rw [if_neg (by simp [hc]), if_neg (fun hor => hor.elim h3 h6)]

lemma parseAttCount_binary {ch : Char} (hch : ch = '5' ∨ ch = '6') (ds rest : List Char)
    (hne : ds ≠ []) (hdig : ∀ x ∈ ds, x.isDigit = true)
    (hbound : parseDigitsNat ds < 4294967296) :
    parseAttCount ch (ds ++ '-' :: rest) = .ok (some (parseDigitsNat ds), rest) := by
  simp only [parseAttCount]
  rw [if_pos hch]
  have hbne : ∀ x ∈ ds, (x != '-') = true :=
    fun x hx => bne_iff_ne.mpr (isDigit_ne_special (hdig x hx)).2.1
  rw [takeWhile_append_stop _ ds '-' rest hbne (by decide),
    dropWhile_append_stop _ ds '-' rest hbne (by decide)]
  cases ds with
  | nil => exact absurd rfl hne
  | cons c t =>
    have hcdig := hdig c (List.mem_cons_self c t)
    simp only [parseU32]
    rw [if_neg (isDigit_ne_special hcdig).2.2.1]
    rw [if_neg (by simp), if_pos (List.all_eq_true.mpr hdig), if_pos hbound]
    simp

lemma parseJsonBody_json {ch : Char} (h : ch = '2' ∨ ch = '4' ∨ ch = '5') (l : List Char) :
    parseJsonBody ch l =
      match builderBuild l with
      | .error e => .error (.jsonError e)
      | .ok j => .ok (some j) := by
  simp only [parseJsonBody]
  rw [if_pos h]

lemma parseJsonBody_none {ch : Char} (h : ¬(ch = '2' ∨ ch = '4' ∨ ch = '5')) (l : List Char) :
    parseJsonBody ch l = .ok none := by
  simp only [parseJsonBody]
  rw [if_neg h]

lemma buildBody_two (att : Option Nat) (id : Option Int) (j : Json) :
    buildBody '2' att id (some j) =
      match get_name_and_body j with
      | .error e => .error e
      | .ok nb => .ok (.Event nb.2 id nb.1) := by
  simp [buildBody]

lemma buildBody_three (att : Option Nat) (jb : Option Json) (i : Int) :
    buildBody '3' att (some i) jb = .ok (.Ack i) := by
  simp [buildBody]

lemma fromChars_cons (ch : Char) (rest : List Char) (h : '0' ≤ ch ∧ ch ≤ '6') :
    Message.fromChars (ch :: rest) =
      match parseAttCount ch rest with
      | .error e => .error e
      | .ok al =>
        match parseNsp al.2 with
        | .error e => .error e
        | .ok nl =>
          match parseAckId ch nl.2 with
          | .error e => .error e
          | .ok il =>
            match parseJsonBody ch il.2 with
            | .error e => .error e
            | .ok jsonBody =>
              match buildBody ch al.1 il.1 jsonBody with
              | .error e => .error e
              | .ok body =>
                match Message._new nl.1 body with
                | some m => .ok m
                | none => .error (.panicked "namespace assertion failed") := by
  simp only [Message.fromChars]
  rw [if_pos h]

lemma _new_slash (body : Body) : Message._new "/" body = some ⟨body, "/"⟩ := rfl

/-- C2 counterexample: `3/` reaches the ack-id position with the input
exhausted — no decimal digit follows — yet parsing fails with the
unexpected-end-of-input error, not the missing-ack-id error the claim
promises for every such input. -/
theorem c2_counterexample_eof_at_ack :
    Message.fromStr "3/" = .error .unexpectedEof ∧
    SocketError.unexpectedEof ≠ .invalidData ACK_PACKET_WITHOUT_ID :=
  ⟨rfl, by decide⟩

/-- C2 amended: at the ack-id position, end of input yields the
unexpected-EOF error for every type; a present non-digit character yields the
missing-ack-id error exactly when the type digit is `3` or `6`, and is left
unconsumed with `id = none` for `2` and `5`.  At the whole-parser level: a
type-`3` text and a type-`6` text (with a well-formed attachment count) whose
ack-id position holds a non-digit fail with the missing-ack-id error, and a
type-`2` text whose ack-id position holds a non-digit never produces a
message with an id. -/
theorem c2_ack_id_requirement :
    (∀ ch : Char, parseAckId ch [] = .error .unexpectedEof) ∧
    (∀ (ch c : Char) (r : List Char), (ch = '3' ∨ ch = '6') → c.isDigit = false →
        parseAckId ch (c :: r) = .error (.invalidData ACK_PACKET_WITHOUT_ID)) ∧
    (∀ (ch c : Char) (r : List Char), (ch = '2' ∨ ch = '5') → c.isDigit = false →
        parseAckId ch (c :: r) = .ok (none, c :: r)) ∧
    (∀ (c : Char) (r : List Char), c ≠ '/' → c.isDigit = false →
        Message.fromChars ('3' :: c :: r) = .error (.invalidData ACK_PACKET_WITHOUT_ID)) ∧
    (∀ (ds : List Char) (c : Char) (r : List Char), ds ≠ [] →
        (∀ x ∈ ds, x.isDigit = true) → parseDigitsNat ds < 4294967296 →
        c ≠ '/' → c.isDigit = false →
        Message.fromChars ('6' :: (ds ++ '-' :: c :: r)) =
          .error (.invalidData ACK_PACKET_WITHOUT_ID)) ∧
    (∀ (c : Char) (r : List Char), c ≠ '/' → c.isDigit = false →
        ∀ m, Message.fromChars ('2' :: c :: r) = .ok m →
          ∃ d n, m.body = .Event d none n) := by
  refine ⟨fun ch => parseAckId_nil_eof ch, ?_, ?_, ?_, ?_, ?_⟩
  · intro ch c r hch hc
    exact parseAckId_mandatory hch hc r
  · intro ch c r hch hc
    rcases hch with h | h
    · subst h; exact parseAckId_optional hc (by decide) (by decide) r
    · subst h; exact parseAckId_optional hc (by decide) (by decide) r
  · intro c r hc hd
    rw [fromChars_cons '3' (c :: r) (by decide)]
    simp only [@parseAttCount_nonbinary '3' (by decide) (c :: r),
      parseNsp_default hc r, parseAckId_mandatory (Or.inl rfl) hd r]
  · intro ds c r hne hdig hbound hc hd
    rw [fromChars_cons '6' (ds ++ '-' :: c :: r) (by decide)]
    simp only [parseAttCount_binary (Or.inr rfl) ds (c :: r) hne hdig hbound,
      parseNsp_default hc r, parseAckId_mandatory (Or.inr rfl) hd r]
  · intro c r hc hd m hok
    rw [fromChars_cons '2' (c :: r) (by decide)] at hok
    simp only [@parseAttCount_nonbinary '2' (by decide) (c :: r),
      parseNsp_default hc r, @parseAckId_optional '2' c hd (by decide) (by decide) r,
      @parseJsonBody_json '2' (by decide) (c :: r)] at hok
    cases hb : builderBuild (c :: r) with
    | error e => simp only [hb] at hok; exact Except.noConfusion hok
    | ok j =>
      simp only [hb, buildBody_two none none j] at hok
      cases hg : get_name_and_body j with
      | error e => simp only [hg] at hok; exact Except.noConfusion hok
      | ok nb =>
        simp only [hg, _new_slash] at hok
        cases hok
        exact ⟨nb.2, nb.1, rfl⟩

/-- Witness for C2 amended at concrete inputs: EOF at the ack position for
type 3, explicit non-digit for type 6 (`6` and `2-`-prefixed forms), id-less
type-2 parse, and a concrete successful id-less Event decode. -/
theorem c2_ack_id_requirement_witness :
    parseAckId '3' [] = .error .unexpectedEof ∧
    parseAckId '6' ('x' :: []) = .error (.invalidData ACK_PACKET_WITHOUT_ID) ∧
    parseAckId '2' ('[' :: []) = .ok (none, '[' :: []) ∧
    Message.fromChars ('3' :: 'x' :: []) = .error (.invalidData ACK_PACKET_WITHOUT_ID) ∧
    Message.fromChars ('6' :: '2' :: '-' :: 'x' :: []) =
      .error (.invalidData ACK_PACKET_WITHOUT_ID) ∧
    (∃ d n, (Message.mk (.Event .Null none "e") "/").body = .Event d none n) :=
  ⟨c2_ack_id_requirement.1 '3',
   c2_ack_id_requirement.2.1 '6' 'x' [] (Or.inr rfl) (by decide),
   c2_ack_id_requirement.2.2.1 '2' '[' [] (Or.inl rfl) (by decide),
   c2_ack_id_requirement.2.2.2.1 'x' [] (by decide) (by decide),
   c2_ack_id_requirement.2.2.2.2.1 ['2'] 'x' [] (by decide) (by decide) (by decide)
     (by decide) (by decide),
   c2_ack_id_requirement.2.2.2.2.2 '[' ('"' :: 'e' :: '"' :: ']' :: []) (by decide) (by decide)
     ⟨.Event .Null none "e", "/"⟩ rfl⟩

lemma _new_some_inv {nsp : String} {body : Body} {m : Message}
    (h : Message._new nsp body = some m) : m = ⟨body, nsp⟩ ∧ ∃ t, nsp.data = '/' :: t := by
  unfold Message._new at h
  split at h
  · rename_i t heq
    cases h
    exact ⟨rfl, t, heq⟩
  · exact Option.noConfusion h

lemma _new_none_of {nsp : String} (body : Body) (h : nsp.data.head? ≠ some '/') :
    Message._new nsp body = none := by
  unfold Message._new
  split
  · rename_i t heq
    exact absurd (by rw [heq]; rfl) h
  · rfl

lemma fromChars_ok_nspace : ∀ (l : List Char) (m : Message), Message.fromChars l = .ok m →
    ∃ t, m.nspace.data = '/' :: t := by
  intro l m h
  cases l with
  | nil => exact Except.noConfusion h
  | cons ch rest =>
    simp only [Message.fromChars] at h
    by_cases hch : '0' ≤ ch ∧ ch ≤ '6'
    · rw [if_pos hch] at h
      cases h1 : parseAttCount ch rest with
      | error e => simp only [h1] at h; exact Except.noConfusion h
      | ok al =>
        simp only [h1] at h
        cases h2 : parseNsp al.2 with
        | error e => simp only [h2] at h; exact Except.noConfusion h
        | ok nl =>
          simp only [h2] at h
          cases h3 : parseAckId ch nl.2 with
          | error e => simp only [h3] at h; exact Except.noConfusion h
          | ok il =>
            simp only [h3] at h
            cases h4 : parseJsonBody ch il.2 with
            | error e => simp only [h4] at h; exact Except.noConfusion h
            | ok jb =>
              simp only [h4] at h
              cases h5 : buildBody ch al.1 il.1 jb with
              | error e => simp only [h5] at h; exact Except.noConfusion h
              | ok body =>
                simp only [h5] at h
                cases h6 : Message._new nl.1 body with
                | none => simp only [h6] at h; exact Except.noConfusion h
                | some m2 =>
                  simp only [h6] at h
                  cases h
                  obtain ⟨hm, t, ht⟩ := _new_some_inv h6
                  subst hm
                  exact ⟨t, ht⟩
    · rw [if_neg hch] at h
      exact Except.noConfusion h

lemma reconstruct_preserves_nspace {m m2 : Message} {atts : List (List Nat)}
    (h : Message.reconstruct m atts = .ok m2) : m2.nspace = m.nspace := by
  obtain ⟨body, nsp⟩ := m
  cases body with
  | BinaryEvent c d i n =>
    simp only [Message.reconstruct] at h
    by_cases hc : c < atts.length
    · rw [if_pos hc] at h
      exact Except.noConfusion h
    · rw [if_neg hc] at h
      cases hr : _reconstruct d atts 512 0 with
      | error e => simp only [hr] at h; exact Except.noConfusion h
      | ok d2 => simp only [hr] at h; cases h; rfl
  | Connect => simp only [Message.reconstruct] at h; cases h; rfl
  | Disconnect => simp only [Message.reconstruct] at h; cases h; rfl
  | Event d i n => simp only [Message.reconstruct] at h; cases h; rfl
  | Ack i => simp only [Message.reconstruct] at h; cases h; rfl
  | Error d => simp only [Message.reconstruct] at h; cases h; rfl
  | BinaryAck i => simp only [Message.reconstruct] at h; cases h; rfl

/-- C7: construction (`new`, `with_default_namespace`, the internal `_new`)
accepts exactly the namespaces beginning with `/` (the assertion rejects the
rest) and stores the namespace unchanged, so every constructed message has a
non-empty namespace starting with `/`; every successfully parsed message
satisfies the same invariant; a wire text whose namespace position does not
hold `/` is given the default namespace `/` with nothing consumed; and the
one mutating operation, `reconstruct`, never changes the namespace. -/
theorem c7_namespace_invariant :
    (∀ (nsp : String) (body : Body) (m : Message), Message.new nsp body = some m →
        m = ⟨body, nsp⟩ ∧ m.nspace.data.head? = some '/' ∧ m.nspace ≠ "") ∧
    (∀ (nsp : String) (body : Body), nsp.data.head? ≠ some '/' →
        Message.new nsp body = none) ∧
    (∀ body : Body, Message.with_default_namespace body = some ⟨body, "/"⟩) ∧
    (∀ (s : String) (m : Message), Message.fromStr s = .ok m →
        m.nspace.data.head? = some '/' ∧ m.nspace ≠ "") ∧
    (∀ (c : Char) (r : List Char), c ≠ '/' → parseNsp (c :: r) = .ok ("/", c :: r)) ∧
    (∀ (m : Message) (atts : List (List Nat)) (m2 : Message),
        Message.reconstruct m atts = .ok m2 → m2.nspace = m.nspace) := by
  refine ⟨?_, ?_, fun _ => rfl, ?_, fun c r hc => parseNsp_default hc r,
    fun m atts m2 h => reconstruct_preserves_nspace h⟩
  · intro nsp body m h
    obtain ⟨hm, t, ht⟩ := _new_some_inv h
    subst hm
    refine ⟨rfl, ?_, ?_⟩
    · show nsp.data.head? = some '/'
      rw [ht]
      rfl
    · show nsp ≠ ""
      intro he
      rw [he] at ht
      exact List.noConfusion ht
  · intro nsp body h
    exact _new_none_of body h
  · intro s m h
    obtain ⟨t, ht⟩ := fromChars_ok_nspace s.data m h
    refine ⟨by rw [ht]; rfl, ?_⟩
    intro he
    rw [he] at ht
    exact List.noConfusion ht

/-- Witness for C7 at concrete inputs: an accepted and a rejected
construction, the default-namespace constructor, a parsed message, the
namespace-defaulting step, and namespace preservation under reconstruction. -/
theorem c7_namespace_invariant_witness :
    ((⟨.Connect, "/nsp"⟩ : Message) = ⟨.Connect, "/nsp"⟩ ∧
      ("/nsp" : String).data.head? = some '/' ∧ ("/nsp" : String) ≠ "") ∧
    Message.new "nsp" .Connect = none ∧
    Message.with_default_namespace .Disconnect = some ⟨.Disconnect, "/"⟩ ∧
    (("/" : String).data.head? = some '/' ∧ ("/" : String) ≠ "") ∧
    parseNsp ('[' :: []) = .ok ("/", '[' :: []) ∧
    ("/" : String) = ("/" : String) := by
  refine ⟨?_, ?_, c7_namespace_invariant.2.2.1 .Disconnect, ?_, ?_, ?_⟩
  · have := c7_namespace_invariant.1 "/nsp" .Connect ⟨.Connect, "/nsp"⟩ rfl
    exact ⟨rfl, this.2.1, this.2.2⟩
  · exact c7_namespace_invariant.2.1 "nsp" .Connect (by decide)
  · have := c7_namespace_invariant.2.2.2.1 "2[\"name\"]" ⟨.Event .Null none "name", "/"⟩ rfl
    exact this
  · exact c7_namespace_invariant.2.2.2.2.1 '[' [] (by decide)
  · exact c7_namespace_invariant.2.2.2.2.2 ⟨.Ack 1, "/"⟩ [[1]] ⟨.Ack 1, "/"⟩ rfl

lemma parseI32_all_digits {l : List Char} (hne : l ≠ []) (hall : ∀ x ∈ l, x.isDigit = true)
    (hbound : parseDigitsNat l ≤ 2147483647) :
    parseI32 l = .ok ((parseDigitsNat l : Nat) : Int) := by
  cases l with
  | nil => exact absurd rfl hne
  | cons c t =>
    have hc := hall c (List.mem_cons_self c t)
    have hspec := isDigit_ne_special hc
    simp only [parseI32]
    have hds : (if c = '-' ∨ c = '+' then t else c :: t) = c :: t :=
      if_neg (fun hor => hor.elim hspec.2.1 hspec.2.2.1)
    have hsgn : (if c = '-' then (-1 : Int) else 1) = 1 := if_neg hspec.2.1
    rw [hds, hsgn]
    rw [if_neg (by simp)]
    rw [if_pos (List.all_eq_true.mpr hall)]
    rw [if_pos (by omega)]
    rw [one_mul]

lemma parseAckId_all_digits (ch : Char) {l : List Char} (hne : l ≠ [])
    (hall : ∀ x ∈ l, x.isDigit = true) (hbound : parseDigitsNat l ≤ 2147483647) :
    parseAckId ch l = .ok (some ((parseDigitsNat l : Nat) : Int), []) := by
  cases l with
  | nil => exact absurd rfl hne
  | cons c t =>
    have hc := hall c (List.mem_cons_self c t)
    simp only [parseAckId]
    rw [if_pos hc, takeWhile_eq_self_of_all hall, dropWhile_eq_nil_of_all hall,
      parseI32_all_digits hne hall hbound]
    rfl

lemma parseNsp_explicit {nsp : String} {t : List Char} (ht : nsp.data = '/' :: t)
    (hnc : ',' ∉ nsp.data) (rest : List Char) :
    parseNsp (nsp.data ++ ',' :: rest) = .ok (nsp, rest) := by
  have hbne : ∀ x ∈ nsp.data, (x != ',') = true :=
    fun x hx => bne_iff_ne.mpr (fun he => hnc (he ▸ hx))
  have key : nsp.data ++ ',' :: rest = '/' :: (t ++ ',' :: rest) := by rw [ht]; rfl
  rw [key]
  simp only [parseNsp]
  rw [if_pos trivial, ← key]
  rw [takeWhile_append_stop _ _ ',' rest hbne (by decide),
    dropWhile_append_stop _ _ ',' rest hbne (by decide)]
  cases nsp with
  | mk d => rfl

lemma _new_of_data {nsp : String} {t : List Char} (ht : nsp.data = '/' :: t) (body : Body) :
    Message._new nsp body = some ⟨body, nsp⟩ := by
  have hdef : Message._new nsp body =
      match nsp.data with
      | '/' :: _ => some ⟨body, nsp⟩
      | _ => none := rfl
  rw [hdef, ht]
  rfl

/-- C1 counterexample: the `Connect` message with the default namespace
encodes to the single character `0`, and decoding `0` fails with the
unexpected-end-of-input error instead of returning the message, so
`decode (encode m) = m` does not hold for every constructible message. -/
theorem c1_counterexample_connect :
    encodeMessage ⟨.Connect, "/"⟩ = "0" ∧
    Message.fromStr (encodeMessage ⟨.Connect, "/"⟩) = .error .unexpectedEof ∧
    ∀ m : Message,
      (Except.error SocketError.unexpectedEof : Except SocketError Message) ≠ .ok m :=
  ⟨rfl, rfl, fun _ h => Except.noConfusion h⟩

/-- C1 amended: the round trip `decode (encode m) = m` holds on the `Ack`
family — every message with body `Ack i` for `0 ≤ i ≤ 2147483647` and a
namespace that starts with `/` and contains no comma — while it fails for
messages whose encoding leaves nothing after the type digit (`Connect`,
`Disconnect`, `BinaryAck`, see the counterexample) and for `Event`/
`BinaryEvent` messages carrying an ack id (the id stage swallows the opening
bracket of the JSON body). -/
theorem c1_roundtrip_ack (nsp : String) (t : List Char) (i : Int)
    (ht : nsp.data = '/' :: t) (hnc : ',' ∉ nsp.data)
    (h0 : 0 ≤ i) (hmax : i ≤ 2147483647) :
    Message.fromStr (encodeMessage ⟨.Ack i, nsp⟩) = .ok ⟨.Ack i, nsp⟩ := by
  have hid : intDecimal i = natDecimal i.toNat := by
    rw [intDecimal, if_neg (by omega)]
  obtain ⟨d, ds, hnd, hd⟩ := natDecimal_cons i.toNat
  have hall : ∀ x ∈ natDecimal i.toNat, x.isDigit = true := fun x hx => natDecimal_digits hx
  have hbound : parseDigitsNat (natDecimal i.toNat) ≤ 2147483647 := by
    rw [natDecimal_value]
    omega
  have hne : natDecimal i.toNat ≠ [] := by
    rw [hnd]
    exact List.cons_ne_nil d ds
  have hack : parseAckId '3' (natDecimal i.toNat) = .ok (some i, []) := by
    rw [parseAckId_all_digits '3' hne hall hbound,
      natDecimal_value, Int.toNat_of_nonneg h0]
  by_cases hns : nsp = "/"
  · subst hns
    have henc : encodeMessage ⟨.Ack i, "/"⟩ = String.mk ('3' :: natDecimal i.toNat) := by
      simp [encodeMessage, hid]
    rw [henc]
    show Message.fromChars ('3' :: natDecimal i.toNat) = .ok ⟨.Ack i, "/"⟩
    have hnsp : parseNsp (natDecimal i.toNat) = .ok ("/", natDecimal i.toNat) := by
      rw [hnd]
      exact parseNsp_default (isDigit_ne_special hd).1 ds
    rw [fromChars_cons '3' _ (by decide)]
    simp only [@parseAttCount_nonbinary '3' (by decide) _, hnsp, hack,
      @parseJsonBody_none '3' (by decide) [], buildBody_three, _new_slash]
  · have henc : encodeMessage ⟨.Ack i, nsp⟩ =
        String.mk ('3' :: (nsp.data ++ ',' :: natDecimal i.toNat)) := by
      simp only [encodeMessage, hid]
      rw [if_neg hns]
      simp [List.append_assoc]
    rw [henc]
    show Message.fromChars ('3' :: (nsp.data ++ ',' :: natDecimal i.toNat)) = .ok ⟨.Ack i, nsp⟩
    rw [fromChars_cons '3' _ (by decide)]
    simp only [@parseAttCount_nonbinary '3' (by decide) _,
      parseNsp_explicit ht hnc (natDecimal i.toNat), hack,
      @parseJsonBody_none '3' (by decide) [], buildBody_three, _new_of_data ht (.Ack i)]

/-- Witness for C1 amended: the message `Ack 42` in namespace `/nsp`
round-trips through the wire text `3/nsp,42`. -/
theorem c1_roundtrip_ack_witness :
    Message.fromStr (encodeMessage ⟨.Ack 42, "/nsp"⟩) = .ok ⟨.Ack 42, "/nsp"⟩ :=
  c1_roundtrip_ack "/nsp" ['n', 's', 'p'] 42 rfl (by decide) (by omega) (by omega)
